import Mathlib

/-!
Shallow embedding of the polyjuice storage layer (src/storage/mod.rs,
src/storage/loader.rs, src/storage/runner.rs, src/storage/indexer.rs).

Conventions of the embedding:
* Machine integers (`u64`, `U256`) are `Nat` with explicit bounds
  `U64MOD = 2^64` and `U256MOD = 2^256`; checked operations
  (`checked_add`, `checked_mul`, CKB `safe_add`/`safe_sub`) test those
  bounds explicitly.  Plain `u64` subtraction is modelled with the
  release-profile wrapping semantics `(a + 2^64 - b) % 2^64`.
* Byte strings are `List Nat` (each entry a byte value).
* Fallible Rust code returning `Result<_, Error>` becomes
  `Except Err _`; code that can additionally hit a Rust panic
  (out-of-bounds slice or index, `expect`) becomes `Except Fault _`
  where `Fault.crash` marks the panic outcome.
* External crates (rocksdb, the CKB RPC client, secp256k1, keccak,
  bincode, `ckb_core` occupied-capacity) are modelled as explicit
  parameters/oracles; `bincode` (de)serialization is abstracted away by
  letting the key/value store hold the deserialized values directly.
-/

namespace Polyjuice

/-- 2^64, the modulus of `u64`. -/
def U64MOD : Nat := 2 ^ 64

/-- 2^256, the modulus of `U256`. -/
def U256MOD : Nat := 2 ^ 256

/-- Little-endian base-256 digits, `k` bytes, of `n` (as in
`u64::to_le_bytes` / `U256::to_le_bytes`). -/
def leBytes : Nat → Nat → List Nat
  | 0, _ => []
  | k + 1, n => n % 256 :: leBytes k (n / 256)

/-- Read a little-endian byte list back as a number
(as in `u64::from_le_bytes` / `U256::from_le_bytes`). -/
def fromLeBytes : List Nat → Nat
  | [] => 0
  | b :: bs => b + 256 * fromLeBytes bs

/-- The constructors of the crate error enum (src/lib.rs) that the
storage layer produces. -/
inductive Err where
  | MalformedData (msg : String)
  | InvalidOutPoint
  deriving DecidableEq, Repr

/-- Outcome layer distinguishing a returned `Error` value from a Rust
panic (out-of-bounds slice/index, `expect`). -/
inductive Fault where
  | err (e : Err)
  | crash (msg : String)
  deriving DecidableEq, Repr

instance {ε α : Type} [DecidableEq ε] [DecidableEq α] :
    DecidableEq (Except ε α) := fun x y =>
  match x, y with
  | .ok a, .ok b =>
    if h : a = b then .isTrue (by rw [h])
    else .isFalse (fun hc => h (by injection hc))
  | .ok _, .error _ => .isFalse (fun hc => Except.noConfusion hc)
  | .error _, .ok _ => .isFalse (fun hc => Except.noConfusion hc)
  | .error e, .error f =>
    if h : e = f then .isTrue (by rw [h])
    else .isFalse (fun hc => h (by injection hc))

/-- Lift a plain error into the `Fault` layer. -/
def liftE {α : Type} : Except Err α → Except Fault α
  | .ok a => .ok a
  | .error e => .error (.err e)

/-- `pub const CHAIN_ID: u64 = 1;` (src/storage/mod.rs). -/
def CHAIN_ID : Nat := 1

/-- `pub const SHANNON_TO_WEI: U256 = u256!("10_000_000_000");` -/
def SHANNON_TO_WEI : Nat := 10 ^ 10

/-- CKB `Capacity::safe_add` on `u64`: `none` models the overflow error. -/
def safeAdd (a b : Nat) : Option Nat :=
  if a + b < U64MOD then some (a + b) else none

/-- CKB `Capacity::safe_sub` on `u64`: `none` models the underflow error. -/
def safeSub (a b : Nat) : Option Nat :=
  if b ≤ a then some (a - b) else none

/-- `wei_to_capacity` (src/storage/mod.rs lines 369-381): divide by
`SHANNON_TO_WEI`, fail if any of the little-endian bytes 8..32 of the
quotient is nonzero, otherwise reassemble the low 8 bytes as a `u64`. -/
def wei_to_capacity (w : Nat) : Except Err Nat :=
  let bytes := leBytes 32 (w / SHANNON_TO_WEI)
  if (bytes.drop 8).any (fun b => b != 0) then
    .error (.MalformedData "Exceeds maximum range of capacity!")
  else
    .ok (fromLeBytes (bytes.take 8))

/-- `calculate_sig_recovery` (src/storage/mod.rs lines 430-438).  The
`v - (2 * CHAIN_ID + 35)` is `u64` subtraction, modelled with the
release-profile wrapping semantics. -/
def calculate_sig_recovery (v : Nat) : Except Err Nat :=
  let v2 := (v + (U64MOD - (2 * CHAIN_ID + 35))) % U64MOD
  if v2 ≠ 0 ∧ v2 ≠ 1 then
    .error (.MalformedData "Invalid recovery")
  else
    .ok v2

/-- `ckb_jsonrpc_types::Script`: a lock script (code hash plus args). -/
structure Script where
  codeHash : List Nat
  args : List (List Nat)
  deriving DecidableEq, Repr

/-- `ckb_jsonrpc_types::CellOutput` (the fields the storage layer uses). -/
structure CellOutput where
  capacity : Nat
  data : List Nat
  lock : Script
  deriving DecidableEq, Repr

/-- `ckb_jsonrpc_types::CellOutPoint`. -/
structure CellOutPoint where
  txHash : List Nat
  index : Nat
  deriving DecidableEq, Repr

/-- `EthCell(pub CellOutput, pub CellOutPoint)` (src/storage/mod.rs). -/
structure EthCell where
  output : CellOutput
  outPoint : CellOutPoint
  deriving DecidableEq, Repr

/-- `EthAccount { main_cell, fund_cells }` (src/storage/mod.rs). -/
structure EthAccount where
  main_cell : Option EthCell
  fund_cells : List EthCell
  deriving DecidableEq, Repr

/-- `EthAccount::total_capacities`: main cell capacity (0 when absent)
`safe_add`-folded over the fund cells; overflow is `MalformedData`. -/
def total_capacities (acct : EthAccount) : Except Err Nat :=
  let mainCapacity := match acct.main_cell with
    | some c => c.output.capacity
    | none => 0
  go acct.fund_cells mainCapacity
where
  go : List EthCell → Nat → Except Err Nat
  | [], sum => .ok sum
  | c :: rest, sum =>
    match safeAdd sum c.output.capacity with
    | some s => go rest s
    | none => .error (.MalformedData "Capacity overflow")

/-- `EthAccount::total_capacities_in_wei`: total capacities times
`SHANNON_TO_WEI` with a `U256` `checked_mul`. -/
def total_capacities_in_wei (acct : EthAccount) : Except Err Nat :=
  match total_capacities acct with
  | .error e => .error e
  | .ok c =>
    if c * SHANNON_TO_WEI < U256MOD then .ok (c * SHANNON_TO_WEI)
    else .error (.MalformedData "Shannon cannot be expressed in wei!")

/-- `EthAccount::next_nonce` (src/storage/mod.rs lines 167-182).  The
source guards `data.len() < 8` and then copies `data[1..9]`; on data of
length exactly 8 that slice is out of bounds, i.e. a Rust panic, which
the embedding records as `Fault.crash`. -/
def next_nonce (acct : EthAccount) : Except Fault Nat :=
  match acct.main_cell with
  | none => .ok 0
  | some mainCell =>
    if mainCell.output.data.length < 8 then
      .error (.err (.MalformedData "Invalid main cell"))
    else if mainCell.output.data.length < 9 then
      .error (.crash "range end index 9 out of range for slice")
    else
      let nonce := fromLeBytes ((mainCell.output.data.drop 1).take 8)
      if nonce + 1 < U256MOD then .ok (nonce + 1)
      else .error (.err (.MalformedData "Nonce addition overflow!"))

/-- `enum BlockNumber { Latest, Number(u64) }` (src/storage/mod.rs). -/
inductive BlockNumber where
  | Latest
  | Number (n : Nat)
  deriving DecidableEq, Repr

/-- Value of one hex digit character (as accepted by Rust
`u64::from_str_radix(_, 16)`). -/
def hexDigit? (c : Char) : Option Nat :=
  if ('0' ≤ c ∧ c ≤ '9') then some (c.toNat - '0'.toNat)
  else if ('a' ≤ c ∧ c ≤ 'f') then some (c.toNat - 'a'.toNat + 10)
  else if ('A' ≤ c ∧ c ≤ 'F') then some (c.toNat - 'A'.toNat + 10)
  else none

/-- Digit loop of Rust `u64::from_str_radix(_, 16)`: accumulate with a
checked multiply-and-add; `none` models both an invalid digit and
overflow past `u64::MAX`. -/
def fromStrRadix16Go : List Char → Nat → Option Nat
  | [], acc => some acc
  | c :: rest, acc =>
    match hexDigit? c with
    | none => none
    | some d =>
      if acc * 16 + d < U64MOD then fromStrRadix16Go rest (acc * 16 + d)
      else none

/-- Rust `u64::from_str_radix(s, 16)`: an optional leading `'+'`
(a `'-'` is not a sign for an unsigned type and fails as an invalid
digit), then at least one hex digit; `none` models every `Err` case. -/
def fromStrRadix16 (s : List Char) : Option Nat :=
  let digits := match s with
    | '+' :: rest => rest
    | _ => s
  match digits with
  | [] => none
  | _ => fromStrRadix16Go digits 0

/-- `BlockNumber::parse` (src/storage/mod.rs lines 222-233): `"latest"`,
else a `"0x"`-prefixed string whose third character is not `'0'` parsed
as hex `u64`, else `MalformedData`.  The error message strings of the
source (a formatted `ParseIntError` / the offending input) are
abbreviated to fixed texts. -/
def BlockNumber.parse (s : List Char) : Except Err BlockNumber :=
  if s = "latest".toList then .ok .Latest
  else if "0x".toList.isPrefixOf s ∧ ¬ ("0x0".toList.isPrefixOf s) then
    match fromStrRadix16 (s.drop 2) with
    | some n => .ok (.Number n)
    | none => .error (.MalformedData "invalid block number literal")
  else .error (.MalformedData "Invalid block number")

/-- Bytewise lexicographic `≤` on keys, the rocksdb default comparator
(a strict prefix sorts before its extensions). -/
def lexLe : List Nat → List Nat → Bool
  | [], _ => true
  | _ :: _, [] => false
  | a :: as, b :: bs =>
    if a < b then true
    else if b < a then false
    else lexLe as bs

/-- Bytewise lexicographic `<` on keys. -/
def lexLt (a b : List Nat) : Bool := lexLe a b && !(a == b)

/-- The key/value store restricted to the `e:` namespace, with values
held in deserialized form (`Vec<CellOutPoint>`); the bincode round trip
is abstracted away. -/
def SnapshotDb : Type := List (List Nat × List CellOutPoint)

/-- rocksdb `raw_iterator().seek_for_prev(target)`: the entry with the
lexicographically greatest key that is `≤ target`, if any. -/
def seekForPrev (db : SnapshotDb) (target : List Nat) :
    Option (List Nat × List CellOutPoint) :=
  db.foldl
    (fun best kv =>
      if lexLe kv.1 target then
        match best with
        | none => some kv
        | some b => if lexLt b.1 kv.1 then some kv else best
      else best)
    none

/-- `build_eth_key` (src/storage/mod.rs lines 55-64):
`"e:" ++ addr ++ ":" ++ little-endian u64 height` (height omitted for
the prefix form). -/
def build_eth_key (ethAddress : List Nat) (blockNumber : Option Nat) :
    List Nat :=
  [0x65, 0x3a] ++ ethAddress ++ [0x3a] ++
    (match blockNumber with
     | some n => leBytes 8 n
     | none => [])

/-- `load_latest_out_points` (src/storage/mod.rs lines 110-131):
`seek_for_prev` from `e:<addr>:<LE8 H>`; if the found key carries the
`e:<addr>:` prefix return its value, otherwise the empty list. -/
def load_latest_out_points (db : SnapshotDb) (ethAddress : List Nat)
    (blockNumber : Nat) : Except Err (List CellOutPoint) :=
  let lastKey := build_eth_key ethAddress (some blockNumber)
  let keyPfx := build_eth_key ethAddress none
  match seekForPrev db lastKey with
  | some kv => if keyPfx.isPrefixOf kv.1 then .ok kv.2 else .ok []
  | none => .ok []

/-- `ckb_jsonrpc_types::CellWithStatus` as returned by `get_live_cell`. -/
structure CellWithStatus where
  status : String
  cell : Option CellOutput

/-- The part of `get_transaction`'s answer that `load_cells` inspects:
the transaction's outputs and whether its status is committed. -/
structure TxWithStatus where
  outputs : List CellOutput
  committed : Bool

/-- Oracle for the external CKB RPC client used by the loader. -/
structure Chain where
  getLiveCell : CellOutPoint → CellWithStatus
  getTransaction : List Nat → Option TxWithStatus

/-- `Loader::load_cells` (src/storage/loader.rs lines 148-184): for each
outpoint take the live cell (`expect` panics on a missing body), else on
a dead cell with `load_spent` fall back to the committed spending
transaction's output at the outpoint's index (a Rust index, panicking
out of bounds); every other case is `InvalidOutPoint`. -/
def load_cells (chain : Chain) (points : List CellOutPoint)
    (loadSpent : Bool) : Except Fault (List EthCell) :=
  match points with
  | [] => .ok []
  | op :: rest =>
    let cws := chain.getLiveCell op
    if cws.status = "live" then
      match cws.cell with
      | some c =>
        match load_cells chain rest loadSpent with
        | .ok cells => .ok (⟨c, op⟩ :: cells)
        | .error e => .error e
      | none => .error (.crash "this cannot be empty!")
    else if cws.status = "dead" ∧ loadSpent = true then
      match chain.getTransaction op.txHash with
      | some tws =>
        if tws.committed then
          match tws.outputs.get? op.index with
          | some c =>
            match load_cells chain rest loadSpent with
            | .ok cells => .ok (⟨c, op⟩ :: cells)
            | .error e => .error e
          | none => .error (.crash "index out of bounds")
        else .error (.err .InvalidOutPoint)
      | none => .error (.err .InvalidOutPoint)
    else .error (.err .InvalidOutPoint)

/-- `Loader::load_account` (src/storage/loader.rs lines 84-101): load
the snapshot's outpoints, load their cells, partition into main cells
(nonempty data) and fund cells; more than one main cell is
`MalformedData("Invalid account cells")`, otherwise the account is
always `Some`. -/
def load_account (db : SnapshotDb) (chain : Chain) (ethAddress : List Nat)
    (blockNumber : Nat) (loadSpent : Bool) :
    Except Fault (Option EthAccount) :=
  match load_latest_out_points db ethAddress blockNumber with
  | .error e => .error (.err e)
  | .ok points =>
    match load_cells chain points loadSpent with
    | .error e => .error e
    | .ok cells =>
      let parts := cells.partition (fun c => 0 < c.output.data.length)
      if 1 < parts.1.length then
        .error (.err (.MalformedData "Invalid account cells"))
      else
        .ok (some ⟨parts.1.head?, parts.2⟩)

/-- `EthTransaction` (src/storage/mod.rs): the decoded RLP fields plus
the derived sender and the retained raw bytes (`from` and `to` are
spelled `fromAddr` and `toAddr` because both are reserved in Lean). -/
structure EthTx where
  nonce : Nat
  gas_price : Nat
  gas_limit : Nat
  toAddr : Option (List Nat)
  value : Nat
  data : Option (List Nat)
  v : Nat
  r : Nat
  s : Nat
  fromAddr : List Nat
  raw : List Nat
  deriving DecidableEq, Repr

/-- `EthTransaction::fees`: `gas_price.checked_mul(gas_limit)` on
`U256`. -/
def fees (tx : EthTx) : Except Err Nat :=
  if tx.gas_price * tx.gas_limit < U256MOD then
    .ok (tx.gas_price * tx.gas_limit)
  else .error (.MalformedData "Wei multiplication overflow!")

/-- `EthTransaction::value_in_capacity`. -/
def value_in_capacity (tx : EthTx) : Except Err Nat :=
  wei_to_capacity tx.value

/-- `EthTransaction::fees_in_capacity`. -/
def fees_in_capacity (tx : EthTx) : Except Err Nat :=
  match fees tx with
  | .ok f => wei_to_capacity f
  | .error e => .error e

/-- `ckb_jsonrpc_types::CellInput` (the `since` field is always 0 and
the outpoint's `block_hash` always `None` in the runner, so only the
cell outpoint is kept). -/
structure CellInput where
  previousOutput : CellOutPoint
  deriving DecidableEq, Repr

/-- The assembled base-chain `Transaction` (deps reduced to their cell
outpoints, a witness being a `Vec<Bytes>`). -/
structure Transaction where
  version : Nat
  deps : List CellOutPoint
  inputs : List CellInput
  outputs : List CellOutput
  witnesses : List (List (List Nat))
  deriving DecidableEq, Repr

/-- The loader state `build_ckb_transaction` consults: the snapshot db,
the chain oracle, and the two deserialized lock code dep outpoints
(`None` models a missing db key). -/
structure LoaderCtx where
  db : SnapshotDb
  chain : Chain
  lockDep : Option CellOutPoint
  contractLockDep : Option CellOutPoint

/-- `Loader::load_lock_out_point`. -/
def load_lock_out_point (loader : LoaderCtx) : Except Err CellOutPoint :=
  match loader.lockDep with
  | some p => .ok p
  | none => .error (.MalformedData "Lock code is not on chain!")

/-- `Loader::load_contract_lock_out_point`. -/
def load_contract_lock_out_point (loader : LoaderCtx) :
    Except Err CellOutPoint :=
  match loader.contractLockDep with
  | some p => .ok p
  | none => .error (.MalformedData "Contract lock code is not on chain!")

/-- `Runner::build_ckb_transaction` (src/storage/runner.rs lines
190-293), parameterized over the external `ckb_core` occupied-capacity
computation `occ` (`none` models its error).  Steps, in source order:
load the sender's account; convert `tx.value`; `safe_add` the spare
capacity and build the target cell; the occupied-capacity check (the
source's formatted message is abbreviated); compute the change capacity
`total - fees - value` via chained `safe_sub` (underflow is
`"Account capacity is not enough!"`); take the prior lock from the main
cell or `fund_cells[0]` (a Rust index, panicking when the account has
neither); load the two dep outpoints; assemble inputs/outputs/witnesses,
prepending the main cell input, and overwrite `witnesses[0]` with
`[tx.raw]` (again a panicking index when empty). -/
def build_ckb_transaction (occ : CellOutput → Option Nat)
    (loader : LoaderCtx) (tx : EthTx) (blockNumber : Nat)
    (data : List Nat) (lock : Script) (spareCapacity : Nat) :
    Except Fault Transaction :=
  match load_account loader.db loader.chain tx.fromAddr blockNumber false with
  | .error e => .error e
  | .ok none => .error (.err (.MalformedData "Account does not exist yet!"))
  | .ok (some account) =>
    match wei_to_capacity tx.value with
    | .error e => .error (.err e)
    | .ok valueCapacity =>
      match safeAdd valueCapacity spareCapacity with
      | none => .error (.err (.MalformedData "Capacity addition overflow"))
      | some targetCapacity =>
        let targetCell : CellOutput := ⟨targetCapacity, data, lock⟩
        match occ targetCell with
        | none => .error (.err (.MalformedData "Capacity error"))
        | some occupied =>
          if targetCapacity < occupied then
            .error (.err (.MalformedData "Capacity is not enough!"))
          else
            match total_capacities account with
            | .error e => .error (.err e)
            | .ok total =>
              match fees_in_capacity tx with
              | .error e => .error (.err e)
              | .ok feesCapacity =>
                match (safeSub total feesCapacity).bind
                    (fun c => safeSub c valueCapacity) with
                | none =>
                  .error (.err (.MalformedData "Account capacity is not enough!"))
                | some changeCapacity =>
                  match (match account.main_cell with
                         | some c => some c.output.lock
                         | none =>
                           account.fund_cells.head?.map
                             (fun (c : EthCell) => c.output.lock)) with
                  | none =>
                    .error (.crash
                      "index out of bounds: the len is 0 but the index is 0")
                  | some originalLock =>
                    match load_lock_out_point loader with
                    | .error e => .error (.err e)
                    | .ok dep1 =>
                      match load_contract_lock_out_point loader with
                      | .error e => .error (.err e)
                      | .ok dep2 =>
                        let changeData := 1 :: leBytes 8 tx.nonce
                        let outputs : List CellOutput :=
                          [⟨changeCapacity, changeData, originalLock⟩,
                           targetCell]
                        let fundInputs := account.fund_cells.map
                          (fun (c : EthCell) => CellInput.mk c.outPoint)
                        let fundWitnesses :
                            List (List (List Nat)) :=
                          account.fund_cells.map (fun _ => [])
                        let (inputs, witnesses) :=
                          match account.main_cell with
                          | some mc =>
                            (CellInput.mk mc.outPoint :: fundInputs,
                             [] :: fundWitnesses)
                          | none => (fundInputs, fundWitnesses)
                        match witnesses with
                        | [] => .error (.crash "index out of bounds")
                        | _ :: restWitnesses =>
                          .ok ⟨0, [dep1, dep2], inputs, outputs,
                               [tx.raw] :: restWitnesses⟩

/-- `EthBasicReceipt` (src/storage/mod.rs lines 440-448). -/
structure EthBasicReceipt where
  transaction_index : Nat
  cumulative_gas : Nat
  block_number : Nat
  ckb_transaction_hash : List Nat
  witness_index : Nat
  deriving DecidableEq, Repr

/-- The part of a base-chain transaction view the receipt-indexing loop
reads: its hash, its outputs (for the lock code-hash test) and its
witnesses. -/
structure CkbTxView where
  hash : List Nat
  outputs : List CellOutput
  witnesses : List (List (List Nat))

/-- The witness scan of `Indexer::index` (src/storage/indexer.rs lines
152-180) for one base-chain transaction, parameterized over
`EthTransaction::from_raw` (`parse`, which involves external secp256k1
recovery) and the keccak transaction hash (`hashFn`).  Arguments `wi`,
`idx`, `cum` are the running witness index, block-local transaction
index and cumulated gas; the result lists the `(eth tx hash, receipt)`
insertions in order together with the final index and gas.  A witness
that is not single-element is not attempted; a parse failure is skipped;
a fees or cumulated-gas overflow aborts with an error (the source's `?`
operators). -/
def index_witnesses (parse : List Nat → Except Err EthTx)
    (hashFn : List Nat → List Nat) (blockNumber : Nat)
    (ckbHash : List Nat) :
    List (List (List Nat)) → Nat → Nat → Nat →
    Except Err (List (List Nat × EthBasicReceipt) × Nat × Nat)
  | [], _, idx, cum => .ok ([], idx, cum)
  | w :: rest, wi, idx, cum =>
    if w.length = 1 then
      match parse (w.headD []) with
      | .error _ => index_witnesses parse hashFn blockNumber ckbHash rest
          (wi + 1) idx cum
      | .ok tx =>
        match fees tx with
        | .error e => .error e
        | .ok f =>
          if cum + f < U256MOD then
            match index_witnesses parse hashFn blockNumber ckbHash rest
                (wi + 1) (idx + 1) (cum + f) with
            | .error e => .error e
            | .ok (out, idx2, cum2) =>
              .ok ((hashFn tx.raw,
                    ⟨idx, cum + f, blockNumber, ckbHash, wi⟩) :: out,
                   idx2, cum2)
          else .error (.MalformedData "Wei addition overflow!")
    else
      index_witnesses parse hashFn blockNumber ckbHash rest (wi + 1) idx cum

/-- The per-transaction receipt loop of `Indexer::index` (lines
144-181): a transaction's witnesses are scanned exactly when some
output's lock code-hash equals `CODE_HASH_LOCK` (passed as
`codeHashLock`, a build-time constant of the crate). -/
def index_txs (parse : List Nat → Except Err EthTx)
    (hashFn : List Nat → List Nat) (codeHashLock : List Nat)
    (blockNumber : Nat) :
    List CkbTxView → Nat → Nat →
    Except Err (List (List Nat × EthBasicReceipt) × Nat × Nat)
  | [], idx, cum => .ok ([], idx, cum)
  | t :: rest, idx, cum =>
    if t.outputs.any (fun o => o.lock.codeHash == codeHashLock) then
      match index_witnesses parse hashFn blockNumber t.hash t.witnesses
          0 idx cum with
      | .error e => .error e
      | .ok (out1, idx1, cum1) =>
        match index_txs parse hashFn codeHashLock blockNumber rest
            idx1 cum1 with
        | .error e => .error e
        | .ok (out2, idx2, cum2) => .ok (out1 ++ out2, idx2, cum2)
    else index_txs parse hashFn codeHashLock blockNumber rest idx cum

/-- Receipt production for one ingested block:
`current_transaction_index` starts at 1 and `current_cumulated_gas` at
0 (src/storage/indexer.rs lines 141-142). -/
def index_block_receipts (parse : List Nat → Except Err EthTx)
    (hashFn : List Nat → List Nat) (codeHashLock : List Nat)
    (blockNumber : Nat) (txs : List CkbTxView) :
    Except Err (List (List Nat × EthBasicReceipt)) :=
  match index_txs parse hashFn codeHashLock blockNumber txs 1 0 with
  | .error e => .error e
  | .ok (out, _, _) => .ok out

/-- Specification-side companion of the witness scan, written from the
spec's words: the successfully parsed transactions of one witness list,
in order. -/
def specParsedWitnesses (parse : List Nat → Except Err EthTx)
    (ws : List (List (List Nat))) : List EthTx :=
  ws.filterMap (fun w =>
    if w.length = 1 then (parse (w.headD [])).toOption else none)

/-- Specification-side companion of the block scan: the successfully
parsed transactions of the block's eligible witnesses, in order. -/
def specParsedTxs (parse : List Nat → Except Err EthTx)
    (codeHashLock : List Nat) (txs : List CkbTxView) : List EthTx :=
  (txs.map (fun t =>
    if t.outputs.any (fun o => o.lock.codeHash == codeHashLock) then
      specParsedWitnesses parse t.witnesses
    else [])).flatten

/-- `Σ gas_price × gas_limit` over a transaction list. -/
def feesSum (l : List EthTx) : Nat :=
  (l.map (fun t => t.gas_price * t.gas_limit)).sum

/-! ### Helper lemmas (shared) -/

theorem fromLeBytes_leBytes (k : Nat) : ∀ n, fromLeBytes (leBytes k n) = n % 256 ^ k := by
  induction k with
  | zero => intro n; simp [leBytes, fromLeBytes, Nat.mod_one]
  | succ k ih =>
    intro n
    have hmul : n % (256 ^ k * 256) = n % 256 + 256 * (n / 256 % 256 ^ k) := by
      rw [mul_comm]; exact Nat.mod_mul
    simp [leBytes, fromLeBytes, ih, pow_succ]
    omega

theorem leBytes_drop (j : Nat) :
    ∀ k n, (leBytes k n).drop j = leBytes (k - j) (n / 256 ^ j) := by
  induction j with
  | zero => intro k n; simp
  | succ j ih =>
    intro k n
    cases k with
    | zero => simp [leBytes]
    | succ k =>
      have : n / 256 ^ (j + 1) = n / 256 / 256 ^ j := by
        rw [Nat.div_div_eq_div_mul, pow_succ']
      simp [leBytes, List.drop_succ_cons, ih k (n / 256), this]

theorem leBytes_take (j : Nat) :
    ∀ k n, j ≤ k → (leBytes k n).take j = leBytes j n := by
  induction j with
  | zero => intro k n _; simp [leBytes]
  | succ j ih =>
    intro k n hjk
    cases k with
    | zero => omega
    | succ k => simp [leBytes, List.take_succ_cons, ih k (n / 256) (by omega)]

theorem leBytes_any_ne (k : Nat) :
    ∀ n, ((leBytes k n).any (fun b => b != 0)) = false ↔ n % 256 ^ k = 0 := by
  induction k with
  | zero => intro n; simp [leBytes, Nat.mod_one]
  | succ k ih =>
    intro n
    have hmul : n % (256 ^ k * 256) = n % 256 + 256 * (n / 256 % 256 ^ k) := by
      rw [mul_comm]; exact Nat.mod_mul
    simp [leBytes, ih (n / 256), pow_succ]
    omega

theorem wei_to_capacity_ok (w : Nat) (_hw : w < U256MOD)
    (hq : w / SHANNON_TO_WEI < U64MOD) :
    wei_to_capacity w = .ok (w / SHANNON_TO_WEI) := by
  have h2 : (2 : Nat) ^ 64 = 256 ^ 8 := by norm_num
  have hq8 : w / SHANNON_TO_WEI < 256 ^ 8 := by
    rw [← h2]; simpa [U64MOD] using hq
  have hdiv0 : w / SHANNON_TO_WEI / 256 ^ 8 = 0 := Nat.div_eq_of_lt hq8
  have hany : ((leBytes 32 (w / SHANNON_TO_WEI)).drop 8).any
      (fun b => b != 0) = false := by
    rw [leBytes_drop, hdiv0, leBytes_any_ne]
    simp
  have htake : (leBytes 32 (w / SHANNON_TO_WEI)).take 8
      = leBytes 8 (w / SHANNON_TO_WEI) := leBytes_take 8 32 _ (by omega)
  have hmod : w / SHANNON_TO_WEI % 256 ^ 8 = w / SHANNON_TO_WEI :=
    Nat.mod_eq_of_lt hq8
  simp only [wei_to_capacity, hany]
  rw [if_neg (by simp), htake, fromLeBytes_leBytes, hmod]

theorem wei_to_capacity_err (w : Nat) (hw : w < U256MOD)
    (hq : U64MOD ≤ w / SHANNON_TO_WEI) :
    wei_to_capacity w
      = .error (.MalformedData "Exceeds maximum range of capacity!") := by
  have h2 : (2 : Nat) ^ 64 = 256 ^ 8 := by norm_num
  have hq8 : 256 ^ 8 ≤ w / SHANNON_TO_WEI := by
    rw [← h2]; simpa [U64MOD] using hq
  have hqlt : w / SHANNON_TO_WEI < 256 ^ 32 := by
    have h32 : U256MOD = 256 ^ 32 := by norm_num [U256MOD]
    exact lt_of_le_of_lt (Nat.div_le_self _ _) (h32 ▸ hw)
  have hpos : 0 < w / SHANNON_TO_WEI / 256 ^ 8 :=
    Nat.div_pos hq8 (by positivity)
  have hlt : w / SHANNON_TO_WEI / 256 ^ 8 < 256 ^ (32 - 8) := by
    rw [Nat.div_lt_iff_lt_mul (by positivity)]
    calc w / SHANNON_TO_WEI < 256 ^ 32 := hqlt
    _ = 256 ^ (32 - 8) * 256 ^ 8 := by rw [← pow_add]
  have hne : w / SHANNON_TO_WEI / 256 ^ 8 % 256 ^ (32 - 8) ≠ 0 := by
    rw [Nat.mod_eq_of_lt hlt]
    omega
  have hany : ((leBytes 32 (w / SHANNON_TO_WEI)).drop 8).any
      (fun b => b != 0) = true := by
    rw [leBytes_drop]
    cases hb : ((leBytes (32 - 8) (w / SHANNON_TO_WEI / 256 ^ 8)).any
        (fun b => b != 0)) with
    | false => exact absurd ((leBytes_any_ne _ _).mp hb) hne
    | true => rfl
  simp only [wei_to_capacity]
  rw [if_pos (by rw [hany])]

theorem safeAdd_some {a b c : Nat} (h : safeAdd a b = some c) :
    c = a + b ∧ a + b < U64MOD := by
  simp only [safeAdd] at h
  split_ifs at h with hc
  injection h with h1
  exact ⟨h1.symm, hc⟩

theorem safeSub_some {a b c : Nat} (h : safeSub a b = some c) :
    c = a - b ∧ b ≤ a := by
  simp only [safeSub] at h
  split_ifs at h with hc
  injection h with h1
  exact ⟨h1.symm, hc⟩

theorem safeAdd_of_lt {a b : Nat} (h : a + b < U64MOD) :
    safeAdd a b = some (a + b) := by simp [safeAdd, h]

theorem safeSub_of_le {a b : Nat} (h : b ≤ a) :
    safeSub a b = some (a - b) := by simp [safeSub, h]

theorem safeSub_of_gt {a b : Nat} (h : a < b) : safeSub a b = none := by
  simp only [safeSub]
  rw [if_neg (by omega)]

theorem total_capacities_go_lt :
    ∀ (l : List EthCell) (a c : Nat), a < U64MOD →
      total_capacities.go l a = .ok c → c < U64MOD := by
  intro l
  induction l with
  | nil =>
    intro a c ha h
    simp only [total_capacities.go] at h
    injection h with h1
    omega
  | cons x rest ih =>
    intro a c ha h
    simp only [total_capacities.go] at h
    cases hs : safeAdd a x.output.capacity with
    | none => rw [hs] at h; cases h
    | some s =>
      rw [hs] at h
      obtain ⟨hsv, hlt⟩ := safeAdd_some hs
      exact ih s c (by omega) h

/-! ### Claim theorems -/

/-- C5: for every 256-bit wei amount `w`, `wei_to_capacity w` returns
the integer quotient of `w` by `10^10` truncated toward zero whenever
that quotient fits in a `u64`, and a `MalformedData` error (never a
truncated value) whenever the quotient exceeds `u64::MAX`. -/
theorem c5_wei_to_capacity_quotient (w : Nat) (hw : w < U256MOD) :
    (w / SHANNON_TO_WEI < U64MOD →
      wei_to_capacity w = .ok (w / SHANNON_TO_WEI)) ∧
    (U64MOD ≤ w / SHANNON_TO_WEI →
      wei_to_capacity w
        = .error (.MalformedData "Exceeds maximum range of capacity!")) :=
  ⟨wei_to_capacity_ok w hw, wei_to_capacity_err w hw⟩

/-- Witness for C5: both branches at concrete inputs. -/
theorem c5_witness :
    wei_to_capacity (3 * 10 ^ 10) = .ok (3 * 10 ^ 10 / SHANNON_TO_WEI) ∧
    wei_to_capacity (2 ^ 64 * 10 ^ 10)
      = .error (.MalformedData "Exceeds maximum range of capacity!") :=
  ⟨(c5_wei_to_capacity_quotient (3 * 10 ^ 10) (by decide)).1 (by decide),
   (c5_wei_to_capacity_quotient (2 ^ 64 * 10 ^ 10) (by decide)).2 (by decide)⟩

/-- C6: converting any `u64` capacity `c` to wei by multiplying with
`10^10` (as `total_capacities_in_wei` does) and converting back with
`wei_to_capacity` succeeds and yields exactly `c`. -/
theorem c6_capacity_wei_roundtrip (acct : EthAccount) (c : Nat)
    (hmain : (match acct.main_cell with
              | some mc => mc.output.capacity
              | none => 0) < U64MOD)
    (htot : total_capacities acct = .ok c) :
    total_capacities_in_wei acct = .ok (c * SHANNON_TO_WEI) ∧
    wei_to_capacity (c * SHANNON_TO_WEI) = .ok c := by
  have hc : c < U64MOD := by
    simp only [total_capacities] at htot
    exact total_capacities_go_lt acct.fund_cells _ c hmain htot
  have hwlt : c * SHANNON_TO_WEI < U256MOD := by
    have h0 : (0 : Nat) < SHANNON_TO_WEI := by norm_num [SHANNON_TO_WEI]
    have h1 : c * SHANNON_TO_WEI < U64MOD * SHANNON_TO_WEI :=
      (Nat.mul_lt_mul_right h0).mpr hc
    have h2 : U64MOD * SHANNON_TO_WEI < U256MOD := by
      norm_num [U64MOD, SHANNON_TO_WEI, U256MOD]
    omega
  have hdiv : c * SHANNON_TO_WEI / SHANNON_TO_WEI = c :=
    Nat.mul_div_cancel c (by norm_num [SHANNON_TO_WEI])
  constructor
  · simp only [total_capacities_in_wei, htot]
    rw [if_pos hwlt]
  · have h := wei_to_capacity_ok (c * SHANNON_TO_WEI) hwlt
      (by rw [hdiv]; exact hc)
    rwa [hdiv] at h

/-- Witness for C6: an account with a single 5-capacity fund cell. -/
theorem c6_witness :
    total_capacities_in_wei
        ⟨none, [⟨⟨5, [], ⟨[171], []⟩⟩, ⟨[205], 0⟩⟩]⟩
      = .ok (5 * SHANNON_TO_WEI) ∧
    wei_to_capacity (5 * SHANNON_TO_WEI) = .ok 5 :=
  c6_capacity_wei_roundtrip ⟨none, [⟨⟨5, [], ⟨[171], []⟩⟩, ⟨[205], 0⟩⟩]⟩ 5
    (by decide) (by decide)

/-- C3: with `CHAIN_ID = 1`, `calculate_sig_recovery` (the gate through
which `EthTransaction::from_raw` reaches sender recovery) succeeds
exactly for `v = 37` (recovery 0) and `v = 38` (recovery 1); every other
`u64` value of `v`, including every pre-EIP-155 `v < 37`, yields a
`MalformedData` error (the wrapping `u64` subtraction never lands on 0
or 1 for any other `v`). -/
theorem c3_sig_recovery_values (v : Nat) (hv : v < U64MOD) :
    (v = 37 → calculate_sig_recovery v = .ok 0) ∧
    (v = 38 → calculate_sig_recovery v = .ok 1) ∧
    (v ≠ 37 → v ≠ 38 →
      calculate_sig_recovery v
        = .error (.MalformedData "Invalid recovery")) := by
  refine ⟨?_, ?_, ?_⟩
  · rintro rfl; decide
  · rintro rfl; decide
  · intro h37 h38
    have hne : (v + (U64MOD - (2 * CHAIN_ID + 35))) % U64MOD ≠ 0 ∧
               (v + (U64MOD - (2 * CHAIN_ID + 35))) % U64MOD ≠ 1 := by
      have h64 : U64MOD = 18446744073709551616 := by norm_num [U64MOD]
      simp only [CHAIN_ID, h64]
      simp only [h64] at hv
      constructor <;> omega
    simp only [calculate_sig_recovery]
    rw [if_pos hne]

/-- Witness for C3: both accepted values and a rejected pre-EIP-155
value. -/
theorem c3_witness :
    calculate_sig_recovery 37 = .ok 0 ∧
    calculate_sig_recovery 38 = .ok 1 ∧
    calculate_sig_recovery 27
      = .error (.MalformedData "Invalid recovery") :=
  ⟨(c3_sig_recovery_values 37 (by decide)).1 rfl,
   (c3_sig_recovery_values 38 (by decide)).2.1 rfl,
   (c3_sig_recovery_values 27 (by decide)).2.2 (by decide) (by decide)⟩

/-- A 20-byte (zero) Ethereum address used in concrete evaluations. -/
def addr0 : List Nat := List.replicate 20 0

/-- A concrete outpoint used in concrete evaluations. -/
def op256 : CellOutPoint := ⟨[170], 0⟩

/-- C1 (failing evaluation): the snapshot db holds exactly one entry for
`addr0`, stored at height 256, and the lookup is made at height `H = 1`.
Because the height is encoded little-endian, the stored key ends in
`00 01 00 ...` which sorts byte-lexicographically before the target key
ending in `01 00 00 ...`, shares the `e:<addr>:` prefix, and is
therefore returned by `seek_for_prev`: the lookup returns the outpoint
set stored at height 256 > 1 instead of the empty set required when no
entry at height ≤ 1 exists. -/
theorem c1_le_height_key_bug :
    load_latest_out_points [(build_eth_key addr0 (some 256), [op256])]
        addr0 1
      = .ok [op256] := by decide

/-- A lock script used in concrete evaluations. -/
def lock0 : Script := ⟨[171], [[17]]⟩

/-- A chain oracle used where the chain is never actually consulted. -/
def chain0 : Chain := ⟨fun _ => ⟨"live", none⟩, fun _ => none⟩

/-- A loader context whose snapshot db is empty (so every account loads
as no main cell and no fund cells) and whose two lock code deps are
present. -/
def loader0 : LoaderCtx := ⟨[], chain0, some ⟨[1], 0⟩, some ⟨[2], 0⟩⟩

/-- A transaction with `value = 0` and `gas_price · gas_limit = 0`, so
the change-capacity subtraction `0 - 0 - 0` does not underflow. -/
def tx0 : EthTx := ⟨0, 0, 0, some [34], 0, none, 37, 1, 1, addr0, [222]⟩

/-- C8 (failing evaluation): the sender account has no main cell and no
fund cells, the change-capacity subtraction does not underflow
(`value = fees = 0`), the occupied-capacity check passes (spare
capacity 100 against a 0 occupied-capacity oracle) — and
`build_ckb_transaction` reaches `account.fund_cells[0]`, a Rust
index-out-of-bounds panic, instead of returning an `Error` value. -/
theorem c8_empty_account_panic :
    build_ckb_transaction (fun _ => some 0) loader0 tx0 5 [] lock0 100
      = .error (.crash
          "index out of bounds: the len is 0 but the index is 0") := by
  decide

/-- C9 (failing evaluation): a present main cell whose data has length
exactly 8 passes the `data.len() < 8` guard of `next_nonce` but the
subsequent read of data bytes `1..9` is out of bounds: a Rust panic,
not a `MalformedData` error. -/
theorem c9_len8_panic :
    next_nonce ⟨some ⟨⟨100, [1, 0, 0, 0, 0, 0, 0, 0], lock0⟩, ⟨[205], 0⟩⟩, []⟩
      = .error (.crash "range end index 9 out of range for slice") := by
  decide

/-- C7: `BlockNumber::parse` returns `Latest` exactly on `"latest"`,
returns `Number n` exactly when the string is `"0x"`-prefixed, the
character following that prefix is not `'0'`, and the remainder parses
as a hexadecimal `u64` equal to `n` (Rust `u64::from_str_radix(_, 16)`
semantics), and returns a `MalformedData` error on every other string —
in particular on every `"0x0"`-prefixed string. -/
theorem c7_block_number_parse (s : List Char) :
    (BlockNumber.parse s = .ok .Latest ↔ s = "latest".toList) ∧
    (∀ n, BlockNumber.parse s = .ok (.Number n) ↔
      ("0x".toList.isPrefixOf s = true ∧
       "0x0".toList.isPrefixOf s = false ∧
       fromStrRadix16 (s.drop 2) = some n)) ∧
    ((s ≠ "latest".toList ∧
      ¬ ("0x".toList.isPrefixOf s = true ∧
         "0x0".toList.isPrefixOf s = false ∧
         (fromStrRadix16 (s.drop 2)).isSome = true)) →
      ∃ m, BlockNumber.parse s = .error (.MalformedData m)) := by
  by_cases h1 : s = "latest".toList
  · subst h1
    refine ⟨by simp [BlockNumber.parse], ?_, ?_⟩
    · intro n
      constructor
      · intro h
        simp [BlockNumber.parse] at h
      · rintro ⟨hp, _, _⟩
        exact absurd hp (by decide)
    · rintro ⟨hne, _⟩
      exact absurd rfl hne
  · by_cases h2 : ("0x".toList.isPrefixOf s = true) ∧
        ¬ ("0x0".toList.isPrefixOf s = true)
    · cases hf : fromStrRadix16 (s.drop 2) with
      | some n0 =>
        have hp : BlockNumber.parse s = .ok (.Number n0) := by
          simp only [BlockNumber.parse]
          rw [if_neg h1, if_pos h2, hf]
        refine ⟨?_, ?_, ?_⟩
        · rw [hp]
          constructor
          · intro hc; simp at hc
          · intro hc; exact absurd hc h1
        · intro n
          rw [hp]
          constructor
          · intro hc
            have hn : n0 = n := by simp at hc; exact hc
            exact ⟨h2.1, Bool.eq_false_iff.mpr h2.2, by rw [hn]⟩
          · rintro ⟨_, _, hsome⟩
            injection hsome with hn
            rw [hn]
        · rintro ⟨_, hnot⟩
          exact absurd ⟨h2.1, Bool.eq_false_iff.mpr h2.2, rfl⟩ hnot
      | none =>
        have hp : BlockNumber.parse s
            = .error (.MalformedData "invalid block number literal") := by
          simp only [BlockNumber.parse]
          rw [if_neg h1, if_pos h2, hf]
        refine ⟨?_, ?_, ?_⟩
        · rw [hp]
          constructor
          · intro hc; simp at hc
          · intro hc; exact absurd hc h1
        · intro n
          rw [hp]
          constructor
          · intro hc; simp at hc
          · rintro ⟨_, _, hsome⟩
            simp at hsome
        · intro _
          exact ⟨_, hp⟩
    · have hp : BlockNumber.parse s
          = .error (.MalformedData "Invalid block number") := by
        simp only [BlockNumber.parse]
        rw [if_neg h1, if_neg h2]
      refine ⟨?_, ?_, ?_⟩
      · rw [hp]
        constructor
        · intro hc; simp at hc
        · intro hc; exact absurd hc h1
      · intro n
        rw [hp]
        constructor
        · intro hc; simp at hc
        · rintro ⟨ha, hb, _⟩
          refine absurd ⟨ha, ?_⟩ h2
          intro hc
          rw [hb] at hc
          simp at hc
      · intro _
        exact ⟨_, hp⟩

/-- Witness for C7: `"latest"`, an accepted hex number, and a rejected
leading-zero hex string. -/
theorem c7_witness :
    BlockNumber.parse "latest".toList = .ok .Latest ∧
    BlockNumber.parse "0x1f".toList = .ok (.Number 31) ∧
    ∃ m, BlockNumber.parse "0x01".toList = .error (.MalformedData m) :=
  ⟨(c7_block_number_parse "latest".toList).1.mpr rfl,
   ((c7_block_number_parse "0x1f".toList).2.1 31).mpr (by decide),
   (c7_block_number_parse "0x01".toList).2.2 (by decide)⟩

/-- C10: `load_account` never returns `Ok(None)`; an address with no
indexed outpoints loads as `Some` account with no main cell and no fund
cells; and given the loaded cells, the result is the
`"Invalid account cells"` error exactly when more than one loaded cell
has nonempty data. -/
theorem c10_load_account_total (db : SnapshotDb) (chain : Chain)
    (addr : List Nat) (blockNumber : Nat) (loadSpent : Bool) :
    (∀ r, load_account db chain addr blockNumber loadSpent = .ok r →
       r ≠ none) ∧
    (load_latest_out_points db addr blockNumber = .ok [] →
       load_account db chain addr blockNumber loadSpent
         = .ok (some ⟨none, []⟩)) ∧
    (∀ points cells,
       load_latest_out_points db addr blockNumber = .ok points →
       load_cells chain points loadSpent = .ok cells →
       (load_account db chain addr blockNumber loadSpent
           = .error (.err (.MalformedData "Invalid account cells")) ↔
         1 < (cells.filter
               (fun c => decide (0 < c.output.data.length))).length)) := by
  refine ⟨?_, ?_, ?_⟩
  · intro r h
    simp only [load_account] at h
    split at h
    · simp at h
    · split at h
      · simp at h
      · split_ifs at h with hcnt
        intro hc
        rw [hc] at h
        simp at h
  · intro h0
    simp [load_account, h0, load_cells]
  · intro points cells hlo hlc
    simp only [load_account, hlo, hlc]
    rw [List.partition_eq_filter_filter]
    by_cases hcnt : 1 < (cells.filter
        (fun c => decide (0 < c.output.data.length))).length
    · rw [if_pos hcnt]
      simp [hcnt]
    · rw [if_neg hcnt]
      simp [hcnt]

/-- A chain oracle whose every cell is live with data `[1]`. -/
def chainMain : Chain :=
  ⟨fun _ => ⟨"live", some ⟨7, [1], lock0⟩⟩, fun _ => none⟩

/-- A snapshot db giving `addr0` two outpoints at height 0. -/
def dbTwoMain : SnapshotDb :=
  [(build_eth_key addr0 (some 0), [⟨[1], 0⟩, ⟨[2], 0⟩])]

/-- Witness for C10: the empty account and the two-main-cells error, at
concrete inputs. -/
theorem c10_witness :
    (some (⟨none, []⟩ : EthAccount) ≠ none) ∧
    load_account [] chain0 addr0 0 true = .ok (some ⟨none, []⟩) ∧
    load_account dbTwoMain chainMain addr0 0 true
      = .error (.err (.MalformedData "Invalid account cells")) :=
  ⟨(c10_load_account_total [] chain0 addr0 0 true).1
      (some ⟨none, []⟩) (by decide),
   (c10_load_account_total [] chain0 addr0 0 true).2.1 (by decide),
   ((c10_load_account_total dbTwoMain chainMain addr0 0 true).2.2
      [⟨[1], 0⟩, ⟨[2], 0⟩]
      [⟨⟨7, [1], lock0⟩, ⟨[1], 0⟩⟩, ⟨⟨7, [1], lock0⟩, ⟨[2], 0⟩⟩]
      (by decide) (by decide)).mpr (by decide)⟩

theorem fees_ok {tx : EthTx} {f : Nat} (h : fees tx = .ok f) :
    f = tx.gas_price * tx.gas_limit ∧
    tx.gas_price * tx.gas_limit < U256MOD := by
  simp only [fees] at h
  split_ifs at h with hc
  injection h with h1
  exact ⟨h1.symm, hc⟩

/-- C2: whenever `build_ckb_transaction` assembles a transaction for a
loaded sender account, its outputs are, in order, the change cell — data
`0x01 ‖ LE8(tx.nonce)`, lock the sender's prior lock (main cell's lock
if present, else the first fund cell's), capacity
`total − fees − value` — followed by the target cell; and when the
change-capacity subtraction underflows (the earlier checks passing) it
fails with `MalformedData "Account capacity is not enough!"`. -/
theorem c2_build_transaction_outputs (occ : CellOutput → Option Nat)
    (loader : LoaderCtx) (tx : EthTx) (blockNumber : Nat)
    (data : List Nat) (lock : Script) (spareCapacity : Nat)
    (account : EthAccount) (vcap tot fcap : Nat)
    (hacct : load_account loader.db loader.chain tx.fromAddr blockNumber
        false = .ok (some account))
    (hv : wei_to_capacity tx.value = .ok vcap)
    (htot : total_capacities account = .ok tot)
    (hfee : fees_in_capacity tx = .ok fcap) :
    (∀ t, build_ckb_transaction occ loader tx blockNumber data lock
        spareCapacity = .ok t →
      fcap + vcap ≤ tot ∧
      ∃ priorLock,
        (match account.main_cell with
         | some c => some c.output.lock
         | none => account.fund_cells.head?.map
             (fun (c : EthCell) => c.output.lock)) = some priorLock ∧
        t.outputs = [⟨tot - fcap - vcap, 1 :: leBytes 8 tx.nonce, priorLock⟩,
                     ⟨vcap + spareCapacity, data, lock⟩]) ∧
    (tot < fcap + vcap →
     vcap + spareCapacity < U64MOD →
     (∃ oc, occ ⟨vcap + spareCapacity, data, lock⟩ = some oc ∧
        oc ≤ vcap + spareCapacity) →
     build_ckb_transaction occ loader tx blockNumber data lock spareCapacity
       = .error (.err (.MalformedData "Account capacity is not enough!"))) := by
  constructor
  · intro t h
    simp only [build_ckb_transaction, hacct, hv, htot, hfee] at h
    split at h
    · simp at h
    · rename_i tc hsa
      obtain ⟨htc, htclt⟩ := safeAdd_some hsa
      split at h
      · simp at h
      · rename_i occupied hocc
        split_ifs at h with hlack
        split at h
        · simp at h
        · rename_i changeCapacity hchg
          rw [Option.bind_eq_some] at hchg
          obtain ⟨c1, hc1, hc2⟩ := hchg
          obtain ⟨hc1v, hc1le⟩ := safeSub_some hc1
          obtain ⟨hc2v, hc2le⟩ := safeSub_some hc2
          split at h
          · simp at h
          · rename_i priorLock hprior
            split at h
            · simp at h
            · rename_i dep1 hdep1
              split at h
              · simp at h
              · rename_i dep2 hdep2
                split at h
                · simp at h
                · rename_i inputs witnesses restWitnesses heqw
                  constructor
                  · omega
                  · refine ⟨priorLock, hprior, ?_⟩
                    injection h with h1
                    rw [← h1]
                    have : changeCapacity = tot - fcap - vcap := by omega
                    rw [htc, this]
  · intro hunder hbound hex
    obtain ⟨oc, hocc, hle⟩ := hex
    have hsub : (safeSub tot fcap).bind (fun c => safeSub c vcap) = none := by
      cases hsf : safeSub tot fcap with
      | none => rfl
      | some c1 =>
        obtain ⟨hc1, hfle⟩ := safeSub_some hsf
        exact safeSub_of_gt (by omega)
    simp only [build_ckb_transaction, hacct, hv, htot, hfee,
      safeAdd_of_lt hbound, hocc, hsub]
    rw [if_neg (by omega)]

/-- Lock script of the concrete fund cell. -/
def lockF : Script := ⟨[3], [[4]]⟩

/-- Lock script of the concrete target cell. -/
def lockT : Script := ⟨[5], [[34]]⟩

/-- Outpoint of the concrete fund cell. -/
def opF : CellOutPoint := ⟨[9], 0⟩

/-- A chain oracle serving one live fund cell of the given capacity. -/
def chainFund (cap : Nat) : Chain :=
  ⟨fun _ => ⟨"live", some ⟨cap, [], lockF⟩⟩, fun _ => none⟩

/-- A snapshot db giving `addr0` the outpoint `opF` at height 5. -/
def dbFund : SnapshotDb := [(build_eth_key addr0 (some 5), [opF])]

/-- Loader over `dbFund` and `chainFund`. -/
def loaderFund (cap : Nat) : LoaderCtx :=
  ⟨dbFund, chainFund cap, some ⟨[1], 0⟩, some ⟨[2], 0⟩⟩

/-- The account `loaderFund cap` loads for `addr0`. -/
def acctFund (cap : Nat) : EthAccount := ⟨none, [⟨⟨cap, [], lockF⟩, opF⟩]⟩

/-- A transaction with nonce 9, `value = 0` and fees of 2 capacity
units (`gas_price = 10^10`, `gas_limit = 2`). -/
def txW : EthTx := ⟨9, 10 ^ 10, 2, some [34], 0, none, 37, 1, 1, addr0, [222]⟩

/-- The base-chain transaction built for `txW` on a 100-capacity
account with spare capacity 50. -/
def tW : Transaction :=
  ⟨0, [⟨[1], 0⟩, ⟨[2], 0⟩], [⟨opF⟩],
   [⟨98, 1 :: leBytes 8 9, lockF⟩, ⟨50, [], lockT⟩], [[[222]]]⟩

/-- Witness for C2: the success shape on a 100-capacity account and the
underflow error on a 1-capacity account. -/
theorem c2_witness :
    (2 + 0 ≤ 100 ∧
     ∃ priorLock,
       (match (acctFund 100).main_cell with
        | some c => some c.output.lock
        | none => (acctFund 100).fund_cells.head?.map
            (fun (c : EthCell) => c.output.lock)) = some priorLock ∧
       tW.outputs = [⟨100 - 2 - 0, 1 :: leBytes 8 txW.nonce, priorLock⟩,
                     ⟨0 + 50, [], lockT⟩]) ∧
    build_ckb_transaction (fun _ => some 0) (loaderFund 1) txW 5 [] lockT 50
      = .error (.err (.MalformedData "Account capacity is not enough!")) :=
  ⟨(c2_build_transaction_outputs (fun _ => some 0) (loaderFund 100) txW 5
      [] lockT 50 (acctFund 100) 0 100 2
      (by decide) (by decide) (by decide) (by decide)).1 tW (by decide),
   (c2_build_transaction_outputs (fun _ => some 0) (loaderFund 1) txW 5
      [] lockT 50 (acctFund 1) 0 1 2
      (by decide) (by decide) (by decide) (by decide)).2
      (by decide) (by decide) ⟨0, rfl, by decide⟩⟩

theorem specW_nil (parse : List Nat → Except Err EthTx) :
    specParsedWitnesses parse [] = [] := rfl

theorem specW_cons_skip (parse : List Nat → Except Err EthTx)
    (w : List (List Nat)) (rest : List (List (List Nat)))
    (h : ¬ w.length = 1) :
    specParsedWitnesses parse (w :: rest) = specParsedWitnesses parse rest := by
  simp only [specParsedWitnesses, List.filterMap_cons]
  rw [if_neg h]

theorem specW_cons_err (parse : List Nat → Except Err EthTx)
    (w : List (List Nat)) (rest : List (List (List Nat))) (e : Err)
    (h : w.length = 1) (he : parse (w.headD []) = .error e) :
    specParsedWitnesses parse (w :: rest) = specParsedWitnesses parse rest := by
  simp only [specParsedWitnesses, List.filterMap_cons]
  rw [if_pos h, he]
  rfl

theorem specW_cons_ok (parse : List Nat → Except Err EthTx)
    (w : List (List Nat)) (rest : List (List (List Nat))) (tx : EthTx)
    (h : w.length = 1) (he : parse (w.headD []) = .ok tx) :
    specParsedWitnesses parse (w :: rest)
      = tx :: specParsedWitnesses parse rest := by
  simp only [specParsedWitnesses, List.filterMap_cons]
  rw [if_pos h, he]
  rfl

theorem feesSum_nil : feesSum [] = 0 := rfl

theorem feesSum_cons (tx : EthTx) (l : List EthTx) :
    feesSum (tx :: l) = tx.gas_price * tx.gas_limit + feesSum l := by
  simp [feesSum]

theorem feesSum_append (a b : List EthTx) :
    feesSum (a ++ b) = feesSum a + feesSum b := by
  simp [feesSum]


theorem index_witnesses_ok (parse : List Nat → Except Err EthTx)
    (hashFn : List Nat → List Nat) (blockNumber : Nat) (ckbHash : List Nat) :
    ∀ (ws : List (List (List Nat))) (wi idx cum : Nat)
      (out : List (List Nat × EthBasicReceipt)) (idx2 cum2 : Nat),
      index_witnesses parse hashFn blockNumber ckbHash ws wi idx cum
        = .ok (out, idx2, cum2) →
      out.length = (specParsedWitnesses parse ws).length ∧
      idx2 = idx + out.length ∧
      cum2 = cum + feesSum (specParsedWitnesses parse ws) ∧
      ∀ k, (hk : k < out.length) →
        (out.get ⟨k, hk⟩).2.transaction_index = idx + k ∧
        (out.get ⟨k, hk⟩).2.cumulative_gas
          = cum + feesSum ((specParsedWitnesses parse ws).take (k + 1)) := by
  intro ws
  induction ws with
  | nil =>
    intro wi idx cum out idx2 cum2 hh
    simp only [index_witnesses] at hh
    injection hh with h1
    injection h1 with h1a h1b
    injection h1b with h1b1 h1b2
    subst h1a
    subst h1b1
    subst h1b2
    refine ⟨rfl, by simp, by simp [specW_nil, feesSum_nil], ?_⟩
    intro k hk
    simp at hk
  | cons w rest ih =>
    intro wi idx cum out idx2 cum2 hh
    simp only [index_witnesses] at hh
    split at hh
    · rename_i hw
      split at hh
      · rename_i e hp
        rw [specW_cons_err parse w rest e hw hp]
        exact ih (wi + 1) idx cum out idx2 cum2 hh
      · rename_i tx hp
        split at hh
        · simp at hh
        · rename_i f hf
          split_ifs at hh with hcum
          split at hh
          · simp at hh
          · rename_i out1 idx1 cum1 hrec
            injection hh with h1
            injection h1 with h1a h1b
            injection h1b with h1b1 h1b2
            subst h1a
            subst h1b1
            subst h1b2
            rw [specW_cons_ok parse w rest tx hw hp]
            obtain ⟨hf1, hf2⟩ := fees_ok hf
            obtain ⟨ih1, ih2, ih3, ih4⟩ :=
              ih (wi + 1) (idx + 1) (cum + f) out1 idx1 cum1 hrec
            refine ⟨by simp [ih1], ?_, ?_, ?_⟩
            · simp only [List.length_cons]
              omega
            · rw [feesSum_cons]
              omega
            · intro k hk
              cases k with
              | zero =>
                simp only [List.get_eq_getElem, List.getElem_cons_zero,
                  List.take_succ_cons, List.take_zero, feesSum_cons,
                  feesSum_nil]
                constructor
                · omega
                · show cum + f = _
                  omega
              | succ k =>
                have hk1 : k < out1.length := by
                  simp only [List.length_cons] at hk
                  omega
                obtain ⟨ihA, ihB⟩ := ih4 k hk1
                simp only [List.get_eq_getElem, List.getElem_cons_succ,
                  List.take_succ_cons, feesSum_cons]
                simp only [List.get_eq_getElem] at ihA ihB
                constructor
                · rw [ihA]
                  omega
                · rw [ihB]
                  omega
    · rename_i hw
      rw [specW_cons_skip parse w rest hw]
      exact ih (wi + 1) idx cum out idx2 cum2 hh


theorem index_witnesses_total (parse : List Nat → Except Err EthTx)
    (hashFn : List Nat → List Nat) (blockNumber : Nat) (ckbHash : List Nat) :
    ∀ (ws : List (List (List Nat))) (wi idx cum : Nat),
      cum + feesSum (specParsedWitnesses parse ws) < U256MOD →
      ∃ res, index_witnesses parse hashFn blockNumber ckbHash ws wi idx cum
        = .ok res := by
  intro ws
  induction ws with
  | nil =>
    intro wi idx cum _
    exact ⟨([], idx, cum), rfl⟩
  | cons w rest ih =>
    intro wi idx cum hbound
    by_cases hw : w.length = 1
    · cases hp : parse (w.headD []) with
      | error e =>
        rw [specW_cons_err parse w rest e hw hp] at hbound
        obtain ⟨res, hres⟩ := ih (wi + 1) idx cum hbound
        refine ⟨res, ?_⟩
        simp only [index_witnesses]
        rw [if_pos hw, hp]
        exact hres
      | ok tx =>
        rw [specW_cons_ok parse w rest tx hw hp, feesSum_cons] at hbound
        have hflt : tx.gas_price * tx.gas_limit < U256MOD := by omega
        have hfees : fees tx = .ok (tx.gas_price * tx.gas_limit) := by
          simp only [fees]
          rw [if_pos hflt]
        have hcum : cum + tx.gas_price * tx.gas_limit < U256MOD := by omega
        obtain ⟨⟨out1, idx1, cum1⟩, hres⟩ :=
          ih (wi + 1) (idx + 1) (cum + tx.gas_price * tx.gas_limit)
            (by omega)
        refine ⟨((hashFn tx.raw,
          ⟨idx, cum + tx.gas_price * tx.gas_limit, blockNumber, ckbHash, wi⟩)
            :: out1, idx1, cum1), ?_⟩
        simp only [index_witnesses]
        rw [if_pos hw]
        simp only [hp, hfees]
        rw [if_pos hcum]
        simp only [hres]
    · rw [specW_cons_skip parse w rest hw] at hbound
      obtain ⟨res, hres⟩ := ih (wi + 1) idx cum hbound
      refine ⟨res, ?_⟩
      simp only [index_witnesses]
      rw [if_neg hw]
      exact hres

theorem specT_cons_true (parse : List Nat → Except Err EthTx)
    (codeHashLock : List Nat) (t : CkbTxView) (rest : List CkbTxView)
    (h : (t.outputs.any (fun o => o.lock.codeHash == codeHashLock)) = true) :
    specParsedTxs parse codeHashLock (t :: rest)
      = specParsedWitnesses parse t.witnesses
        ++ specParsedTxs parse codeHashLock rest := by
  simp only [specParsedTxs, List.map_cons, List.flatten_cons]
  rw [if_pos h]

theorem specT_cons_false (parse : List Nat → Except Err EthTx)
    (codeHashLock : List Nat) (t : CkbTxView) (rest : List CkbTxView)
    (h : ¬ (t.outputs.any (fun o => o.lock.codeHash == codeHashLock)) = true) :
    specParsedTxs parse codeHashLock (t :: rest)
      = specParsedTxs parse codeHashLock rest := by
  simp only [specParsedTxs, List.map_cons, List.flatten_cons]
  rw [if_neg h]
  rfl


theorem index_txs_ok (parse : List Nat → Except Err EthTx)
    (hashFn : List Nat → List Nat) (codeHashLock : List Nat)
    (blockNumber : Nat) :
    ∀ (txs : List CkbTxView) (idx cum : Nat)
      (out : List (List Nat × EthBasicReceipt)) (idx2 cum2 : Nat),
      index_txs parse hashFn codeHashLock blockNumber txs idx cum
        = .ok (out, idx2, cum2) →
      out.length = (specParsedTxs parse codeHashLock txs).length ∧
      idx2 = idx + out.length ∧
      cum2 = cum + feesSum (specParsedTxs parse codeHashLock txs) ∧
      ∀ k, (hk : k < out.length) →
        (out.get ⟨k, hk⟩).2.transaction_index = idx + k ∧
        (out.get ⟨k, hk⟩).2.cumulative_gas
          = cum + feesSum
              ((specParsedTxs parse codeHashLock txs).take (k + 1)) := by
  intro txs
  induction txs with
  | nil =>
    intro idx cum out idx2 cum2 hh
    simp only [index_txs] at hh
    injection hh with h1
    injection h1 with h1a h1b
    injection h1b with h1b1 h1b2
    subst h1a
    subst h1b1
    subst h1b2
    refine ⟨rfl, by simp, by simp [specParsedTxs, feesSum_nil], ?_⟩
    intro k hk
    simp at hk
  | cons t rest ih =>
    intro idx cum out idx2 cum2 hh
    simp only [index_txs] at hh
    split at hh
    · rename_i hany
      split at hh
      · simp at hh
      · rename_i out1 idx1 cum1 hwit
        split at hh
        · simp at hh
        · rename_i out2 idx2x cum2x hrest
          injection hh with h1
          injection h1 with h1a h1b
          injection h1b with h1b1 h1b2
          subst h1a
          subst h1b1
          subst h1b2
          rw [specT_cons_true parse codeHashLock t rest hany]
          obtain ⟨w1, w2, w3, w4⟩ :=
            index_witnesses_ok parse hashFn blockNumber t.hash t.witnesses
              0 idx cum out1 idx1 cum1 hwit
          obtain ⟨r1, r2, r3, r4⟩ := ih idx1 cum1 out2 idx2x cum2x hrest
          refine ⟨?_, ?_, ?_, ?_⟩
          · simp [List.length_append, w1, r1]
          · simp only [List.length_append]
            omega
          · rw [feesSum_append]
            omega
          · intro k hk
            by_cases hkl : k < out1.length
            · obtain ⟨wA, wB⟩ := w4 k hkl
              have hget : ((out1 ++ out2).get ⟨k, hk⟩)
                  = out1.get ⟨k, hkl⟩ := by
                simp only [List.get_eq_getElem]
                exact List.getElem_append_left hkl
              constructor
              · rw [hget]
                exact wA
              · rw [hget, wB, List.take_append_eq_append_take]
                have hz : k + 1
                    - (specParsedWitnesses parse t.witnesses).length = 0 := by
                  omega
                rw [hz, List.take_zero, List.append_nil]
            · have hk2 : k - out1.length < out2.length := by
                simp only [List.length_append] at hk
                omega
              obtain ⟨rA, rB⟩ := r4 (k - out1.length) hk2
              have hget : ((out1 ++ out2).get ⟨k, hk⟩)
                  = out2.get ⟨k - out1.length, hk2⟩ := by
                simp only [List.get_eq_getElem]
                exact List.getElem_append_right (by omega)
              constructor
              · rw [hget, rA]
                omega
              · rw [hget, rB, List.take_append_eq_append_take, feesSum_append]
                have hWfull : (specParsedWitnesses parse t.witnesses).take (k + 1)
                    = specParsedWitnesses parse t.witnesses :=
                  List.take_of_length_le (by omega)
                rw [hWfull]
                have hix : k + 1 - (specParsedWitnesses parse t.witnesses).length
                    = k - out1.length + 1 := by omega
                rw [hix]
                omega
    · rename_i hany
      rw [specT_cons_false parse codeHashLock t rest hany]
      exact ih idx cum out idx2 cum2 hh

theorem index_txs_total (parse : List Nat → Except Err EthTx)
    (hashFn : List Nat → List Nat) (codeHashLock : List Nat)
    (blockNumber : Nat) :
    ∀ (txs : List CkbTxView) (idx cum : Nat),
      cum + feesSum (specParsedTxs parse codeHashLock txs) < U256MOD →
      ∃ res, index_txs parse hashFn codeHashLock blockNumber txs idx cum
        = .ok res := by
  intro txs
  induction txs with
  | nil =>
    intro idx cum _
    exact ⟨([], idx, cum), rfl⟩
  | cons t rest ih =>
    intro idx cum hbound
    by_cases hany : (t.outputs.any
        (fun o => o.lock.codeHash == codeHashLock)) = true
    · rw [specT_cons_true parse codeHashLock t rest hany,
        feesSum_append] at hbound
      obtain ⟨⟨out1, idx1, cum1⟩, hwit⟩ :=
        index_witnesses_total parse hashFn blockNumber t.hash t.witnesses
          0 idx cum (by omega)
      obtain ⟨w1, w2, w3, w4⟩ :=
        index_witnesses_ok parse hashFn blockNumber t.hash t.witnesses
          0 idx cum out1 idx1 cum1 hwit
      obtain ⟨⟨out2, idx2, cum2⟩, hrest⟩ := ih idx1 cum1 (by omega)
      refine ⟨(out1 ++ out2, idx2, cum2), ?_⟩
      simp only [index_txs]
      rw [if_pos hany]
      simp only [hwit, hrest]
    · rw [specT_cons_false parse codeHashLock t rest hany] at hbound
      obtain ⟨res, hres⟩ := ih idx cum hbound
      refine ⟨res, ?_⟩
      simp only [index_txs]
      rw [if_neg hany]
      exact hres


/-- C4: in the receipt-indexing scan of one ingested block, considering
(in order) the single-element witnesses of those base-chain transactions
that have an output locked with `CODE_HASH_LOCK`: each successfully
parsed witness produces an `EthBasicReceipt` whose `transaction_index`
is its (1-based) position among the successfully parsed transactions and
whose `cumulative_gas` is the running `Σ gas_price · gas_limit` up to
and including it; witnesses that fail to parse produce no receipt and
(as long as the fee sum does not overflow `U256`) do not abort the
block's ingestion. -/
theorem c4_receipt_indices (parse : List Nat → Except Err EthTx)
    (hashFn : List Nat → List Nat) (codeHashLock : List Nat)
    (blockNumber : Nat) (txs : List CkbTxView) :
    (∀ out, index_block_receipts parse hashFn codeHashLock blockNumber txs
        = .ok out →
      out.length = (specParsedTxs parse codeHashLock txs).length ∧
      ∀ k, (hk : k < out.length) →
        (out.get ⟨k, hk⟩).2.transaction_index = k + 1 ∧
        (out.get ⟨k, hk⟩).2.cumulative_gas
          = feesSum ((specParsedTxs parse codeHashLock txs).take (k + 1))) ∧
    (feesSum (specParsedTxs parse codeHashLock txs) < U256MOD →
      ∃ out, index_block_receipts parse hashFn codeHashLock blockNumber txs
        = .ok out) := by
  constructor
  · intro out hh
    simp only [index_block_receipts] at hh
    split at hh
    · simp at hh
    · rename_i out1 idx1 cum1 htxs
      injection hh with h1
      subst h1
      obtain ⟨r1, r2, r3, r4⟩ :=
        index_txs_ok parse hashFn codeHashLock blockNumber txs
          1 0 out1 idx1 cum1 htxs
      refine ⟨r1, ?_⟩
      intro k hk
      obtain ⟨rA, rB⟩ := r4 k hk
      constructor
      · rw [rA]
        omega
      · rw [rB]
        omega
  · intro hbound
    obtain ⟨⟨out1, idx1, cum1⟩, htxs⟩ :=
      index_txs_total parse hashFn codeHashLock blockNumber txs 1 0
        (by omega)
    refine ⟨out1, ?_⟩
    simp only [index_block_receipts, htxs]

/-- A concrete Ethereum transaction with fees `2 · 3 = 6`. -/
def txA : EthTx := ⟨0, 2, 3, none, 0, none, 37, 1, 1, addr0, [7]⟩

/-- A concrete parse oracle: witness body `[7]` parses to `txA`, any
other body fails. -/
def parseW : List Nat → Except Err EthTx :=
  fun w => if w = [7] then .ok txA else .error (.MalformedData "unparsable")

/-- A base-chain transaction with one `CODE_HASH_LOCK` (= `[9]`) output
and four witnesses: parsed, unparsable, two-element (skipped), parsed. -/
def blockTxW : CkbTxView :=
  ⟨[1], [⟨0, [], ⟨[9], [[8]]⟩⟩], [[[7]], [[5]], [[7], [8]], [[7]]]⟩

/-- The receipts the scan produces for `blockTxW`. -/
def outW : List (List Nat × EthBasicReceipt) :=
  [([7], ⟨1, 6, 5, [1], 0⟩), ([7], ⟨2, 12, 5, [1], 3⟩)]

/-- Witness for C4 at a concrete block: two parsed witnesses among four,
indices 1 and 2, cumulated gas 6 then 12. -/
theorem c4_witness :
    outW.length = (specParsedTxs parseW [9] [blockTxW]).length ∧
    (outW.get ⟨1, by decide⟩).2.transaction_index = 1 + 1 ∧
    (outW.get ⟨1, by decide⟩).2.cumulative_gas
      = feesSum ((specParsedTxs parseW [9] [blockTxW]).take (1 + 1)) ∧
    ∃ out, index_block_receipts parseW id [9] 5 [blockTxW] = .ok out :=
  ⟨((c4_receipt_indices parseW id [9] 5 [blockTxW]).1 outW (by decide)).1,
   (((c4_receipt_indices parseW id [9] 5 [blockTxW]).1 outW
      (by decide)).2 1 (by decide)).1,
   (((c4_receipt_indices parseW id [9] 5 [blockTxW]).1 outW
      (by decide)).2 1 (by decide)).2,
   (c4_receipt_indices parseW id [9] 5 [blockTxW]).2 (by decide)⟩

end Polyjuice
